import Mathlib

/-!
Formal model of the go-feign declarative REST client (feign/Client.go).

The repository synthesizes HTTP client callables from struct tags.  We give a
shallow embedding of the pieces the specification talks about:

* the directive parser (the loop over `strings.Split(doc, "|")` in `Create`),
* the bind-time signature validation (the `panic` checks in `Create`),
* call-time positional argument consumption (context / body / path / query /
  header),
* path placeholder substitution (`strings.ReplaceAll` over declared paths),
* the per-call header merge into the client header map,
* URL resolution (`resolveUrl` plus the `@Url` scan of `Create`),
* response mapping (transport error / non-2xx / decode branches).

Go strings are modelled as `List Char` (written `Str` below) so that every
operation is structurally computable; `str` injects Lean string literals.
Go's dynamic argument values are modelled by their stringified forms (the
code immediately stringifies every bound argument with `fmt.Sprintf("%v", ·)`),
and the reflective result type is abstracted by a type parameter with an
explicit zero value standing for `reflect.Zero(methodType.Out(0))`.
The source file contains two draft variants of the client (`Client.Create`
and `feignClient.Create`); definitions are suffixed `V1` / `V2` where the
variants differ and shared otherwise.
-/

namespace Feign

/-- Go strings, modelled as lists of characters. -/
abbrev Str := List Char

/-- Inject a Lean string literal into the model. -/
def str (s : String) : Str := s.data

/-- Split a string at every occurrence of the single-character separator
`sep`, keeping empty pieces: Go `strings.Split(s, sep)` for a one-character
separator (the code only ever splits on `"|"`). -/
def splitOnChar (sep : Char) : Str → List Str
  | [] => [[]]
  | c :: rest =>
    let r := splitOnChar sep rest
    if c == sep then [] :: r
    else
      match r with
      | [] => [[c]]
      | hd :: tl => (c :: hd) :: tl

/-- Go `strings.TrimSpace`: drop leading and trailing whitespace. -/
def trimL (s : Str) : Str :=
  ((s.dropWhile Char.isWhitespace).reverse.dropWhile Char.isWhitespace).reverse

/-- Go `strings.HasPrefix`. -/
def startsWithL (s p : Str) : Bool := p.isPrefixOf s

/-- Go `strings.Fields`: split around runs of whitespace, dropping empties. -/
def fieldsL (s : Str) : List Str :=
  (splitOnChar ' ' (s.map (fun c => if c.isWhitespace then ' ' else c))).filter
    (fun t => t ≠ [])

/-- Go `strings.ToUpper` (ASCII directives only appear in the tags). -/
def toUpperL (s : Str) : Str := s.map Char.toUpper

/-- Go `strings.TrimPrefix`: drop `p` from the front of `s` when present. -/
def trimPrefixL (s p : Str) : Str :=
  if p.isPrefixOf s then s.drop p.length else s

/-- The four verb directives recognised by the `switch` in `Create`. -/
def verbs : List Str := [str "GET", str "POST", str "PUT", str "DELETE"]

/-- Field `parts[0]` of a directive line with its leading `@` removed
(`strings.TrimPrefix(parts[0], "@")`). -/
def directiveTag (line : Str) : Str := trimPrefixL ((fieldsL line).headD []) (str "@")

/-- Field `parts[1]` of a directive line. -/
def directiveValue (line : Str) : Str := ((fieldsL line).drop 1).headD []

/-- The compiled form of one field's directive string: the `httpMethod`,
`path`, `bodyParam` variables and `paths` / `headers` / `queries` slices
accumulated by the directive loop of `Create`. -/
structure CallTemplate where
  httpMethod : Str := []
  path : Str := []
  bodyParam : Str := []
  paths : List Str := []
  headers : List Str := []
  queries : List Str := []
  deriving DecidableEq, Repr

/-- One iteration of the directive loop in `Create`: trim the line, skip
empty lines, lines that do not start with `@`, and lines with fewer than two
fields; then dispatch on the upper-cased tag exactly as the Go `switch`
does.  No branch reports an error. -/
def parseLine (t : CallTemplate) (line0 : Str) : CallTemplate :=
  let line := trimL line0
  if line = [] then t
  else if startsWithL line (str "@") then
    if (fieldsL line).length < 2 then t
    else
      let tagU := toUpperL (directiveTag line)
      let value := directiveValue line
      if tagU ∈ verbs then { t with httpMethod := tagU, path := value }
      else if tagU = str "PATH" then { t with paths := t.paths ++ [value] }
      else if tagU = str "HEADER" then { t with headers := t.headers ++ [value] }
      else if tagU = str "BODY" then { t with bodyParam := value }
      else if tagU = str "QUERY" then { t with queries := t.queries ++ [value] }
      else t
  else t

/-- Parsing a whole `feign` tag: the directive loop folded over
`strings.Split(doc, "|")`.  Parsing is total. -/
def parseTag (doc : Str) : CallTemplate :=
  (splitOnChar '|' doc).foldl parseLine {}

/-- Holds (as `true`) iff `parseLine` takes the verb branch on this line. -/
def isVerbLineB (line0 : Str) : Bool :=
  let line := trimL line0
  startsWithL line (str "@") && decide (2 ≤ (fieldsL line).length) &&
    decide (toUpperL (directiveTag line) ∈ verbs)

/-! ### Bind-time signature validation

`Create` inspects each function-typed field's reflected signature.  A
signature is abstracted by the four facts the code queries. -/

/-- The reflected shape of a function field: `NumIn()`, whether
`In(0).Implements(context.Context)`, `NumOut()`, and whether
`Out(1).Implements(error)`. -/
structure FuncSig where
  numIn : Nat
  firstImplementsContext : Bool
  numOut : Nat
  out1ImplementsError : Bool
  deriving DecidableEq, Repr

/-- The three `panic` guards of the first variant's `Create`, in source
order; `Except.error` carries the panic message. -/
def validateSigV1 (name : Str) (s : FuncSig) : Except Str Unit :=
  if s.numIn < 1 then
    .error (str "method " ++ name ++ str " must have at least one parameter (context.Context)")
  else if !s.firstImplementsContext then
    .error (str "method " ++ name ++ str " first parameter must be context.Context")
  else if s.numOut ≠ 2 ∨ !s.out1ImplementsError then
    .error (str "method " ++ name ++ str " must return (*T, error)")
  else .ok ()

/-- The single `panic` guard of the second variant's `Create`. -/
def validateSigV2 (name : Str) (s : FuncSig) : Except Str Unit :=
  if s.numOut ≠ 2 ∨ !s.out1ImplementsError then
    .error (str "method " ++ name ++ str " must return (*T, error)")
  else .ok ()

/-- One field of the target struct as `Create` sees it: its name, its
reflected function signature when `field.Type.Kind() == reflect.Func`
(`none` for non-function fields, which the loop skips), and its `feign`
tag. -/
structure TargetField where
  name : Str
  funcSig : Option FuncSig
  tag : Str

/-- The field loop of the first variant's `Create`: skip non-function
fields, run the signature panics, and otherwise compile the tag into a
template and bind it.  Note that no check relates the parsed template to the
signature. -/
def bindFieldsV1 : List TargetField → Except Str (List (Str × CallTemplate))
  | [] => .ok []
  | f :: fs =>
    match f.funcSig with
    | none => bindFieldsV1 fs
    | some s =>
      match validateSigV1 f.name s with
      | .error e => .error e
      | .ok _ =>
        match bindFieldsV1 fs with
        | .error e => .error e
        | .ok rest => .ok ((f.name, parseTag f.tag) :: rest)

/-- What the first variant's panics jointly require of a signature (stated
from the spec sentence: at least one parameter, the first implementing
`context.Context`, and exactly two results with the second implementing
`error`). -/
def SigOkV1 (s : FuncSig) : Prop :=
  1 ≤ s.numIn ∧ s.firstImplementsContext = true ∧
    s.numOut = 2 ∧ s.out1ImplementsError = true

/-! ### Call-time argument consumption -/

/-- The consumption of one binding slice by the synthesized closure: iterate
the declared names, `break` silently as soon as the arguments run out,
otherwise pair the next argument with the next name.  Returns the pairs and
the remaining arguments. -/
def takeBind : List Str → List Str → List (Str × Str) × List Str
  | [], rest => ([], rest)
  | _ :: _, [] => ([], [])
  | n :: ns, a :: rest =>
    let (ps, r) := takeBind ns rest
    ((n, a) :: ps, r)

/-- The request data assembled by a synthesized closure before the HTTP
call: the optional body argument and the path / query / header
name-to-argument pairs. -/
structure BuiltCall where
  body : Option Str
  pathArgs : List (Str × Str)
  queryArgs : List (Str × Str)
  headerArgs : List (Str × Str)
  deriving DecidableEq, Repr

/-- The shared tail of both closures: consume path, then query, then header
arguments from the remaining argument list. -/
def consumeTrailing (t : CallTemplate) (b : Option Str) (rest : List Str) : BuiltCall :=
  let (ps, r1) := takeBind t.paths rest
  let (qs, r2) := takeBind t.queries r1
  let (hs, _) := takeBind t.headers r2
  ⟨b, ps, qs, hs⟩

/-- The first variant's closure body on the arguments after the context
(`j` starts at 1): a declared body takes the next argument — panicking with
the source's message when none is left — then paths, queries, headers. -/
def buildCallV1 (t : CallTemplate) (trailing : List Str) : Except Str BuiltCall :=
  if t.bodyParam ≠ [] then
    match trailing with
    | [] => .error (str "body param missing in function call args")
    | b :: rest => .ok (consumeTrailing t (some b) rest)
  else .ok (consumeTrailing t none trailing)

/-- The first variant's closure: `args[0]` is the context (modelled as an
opaque token); the rest is consumed by `buildCallV1`.  An empty argument
list cannot occur because `MakeFunc` always passes `NumIn() ≥ 1` values. -/
def invokeArgsV1 (t : CallTemplate) (args : List Str) : Except Str (Str × BuiltCall) :=
  match args with
  | [] => .error (str "index out of range")
  | ctx :: trailing => (buildCallV1 t trailing).map (fun b => (ctx, b))

/-- The second variant's closure body (`j` starts at 0, no context): a
declared body reads `args[0]` unconditionally — an empty argument list is a
Go index-out-of-range panic — then paths, queries, headers. -/
def buildCallV2 (t : CallTemplate) (args : List Str) : Except Str BuiltCall :=
  if t.bodyParam ≠ [] then
    match args with
    | [] => .error (str "index out of range")
    | b :: rest => .ok (consumeTrailing t (some b) rest)
  else .ok (consumeTrailing t none args)

/-! ### Path placeholder substitution (`strings.ReplaceAll`) -/

def lbrace : Char := Char.ofNat 123
def rbrace : Char := Char.ofNat 125

/-- Placeholder text `fmt.Sprintf("{%s}", p)` for a path name. -/
def placeholderL (p : Str) : Str := lbrace :: (p ++ [rbrace])

/-- The scanning core of Go `strings.ReplaceAll` for a non-empty pattern
`ph :: pt`: at each position, either the pattern matches and is replaced by
`v` (resuming after the match), or one character is emitted.  The `fuel`
argument makes the recursion structural; it is always called with
`fuel ≥ s.length`, where a scan step never exhausts it. -/
def replAuxF (ph : Char) (pt v : Str) : Nat → Str → Str
  | 0, s => s
  | _ + 1, [] => []
  | fuel + 1, c :: s =>
    if (ph :: pt).isPrefixOf (c :: s) then v ++ replAuxF ph pt v fuel (s.drop pt.length)
    else c :: replAuxF ph pt v fuel s

/-- Go `strings.ReplaceAll s pat v` (for the empty pattern Go inserts `v`
between all characters; the code only ever passes `{name}` patterns). -/
def replaceAllL (s pat v : Str) : Str :=
  match pat with
  | [] => v ++ (s.map (fun c => c :: v)).flatten
  | ph :: pt => replAuxF ph pt v s.length s

/-- Go `strings.Contains s pat`. -/
def containsSub (s pat : Str) : Bool :=
  match s with
  | [] => pat.isEmpty
  | _ :: rest => pat.isPrefixOf s || containsSub rest pat

/-- The path-substitution loop of the closures: for each declared path name
(in declaration order), `break` if the arguments ran out, otherwise replace
all occurrences of its placeholder by the next (stringified) argument. -/
def substPathL : Str → List Str → List Str → Str
  | pattern, [], _ => pattern
  | pattern, _ :: _, [] => pattern
  | pattern, p :: ps, a :: as => substPathL (replaceAllL pattern (placeholderL p) a) ps as

/-- Holds (as `true`) of a string containing neither brace character.
Path-pattern literals, binding names and stringified arguments of
well-formed templates satisfy it. -/
def braceFreeB (s : Str) : Bool :=
  s.all (fun c => !(c == lbrace) && !(c == rbrace))

/-- Shape of a path pattern as declared in a template: an alternating
sequence of one placeholder and one following literal per declared path
binding, `buildPattern [(p1, l1), (p2, l2), ...] = {p1} ++ l1 ++ {p2} ++
l2 ++ ...`.  Used to state the multi-binding substitution theorem. -/
def buildPattern : List (Str × Str) → Str
  | [] => []
  | (p, lit) :: rest => placeholderL p ++ (lit ++ buildPattern rest)

/-- The expected outcome of substituting such a pattern: each placeholder
replaced by its declaration-order argument,
`buildResult [(p1, l1), (p2, l2), ...] [a1, a2, ...] = a1 ++ l1 ++ a2 ++
l2 ++ ...`. -/
def buildResult : List (Str × Str) → List Str → Str
  | [], _ => []
  | _ :: _, [] => []
  | (_, lit) :: rest, a :: as => a ++ (lit ++ buildResult rest as)

/-! ### Per-call header handling -/

/-- Go map assignment `m[k] = v` on an association-list model of
`map[string]string`. -/
def upsert : List (Str × Str) → Str → Str → List (Str × Str)
  | [], k, v => [(k, v)]
  | (k1, v1) :: rest, k, v =>
    if k1 = k then (k, v) :: rest else (k1, v1) :: upsert rest k v

/-- Go map read `m[k]` (with presence). -/
def lookupA : List (Str × Str) → Str → Option Str
  | [], _ => none
  | (k1, v1) :: rest, k => if k1 = k then some v1 else lookupA rest k

/-- The value the last binding of `k` in a per-call header list would leave
in a map built from it. -/
def lookupLast : List (Str × Str) → Str → Option Str
  | [], _ => none
  | (k1, v1) :: rest, k =>
    match lookupLast rest k with
    | some v => some v
    | none => if k1 = k then some v1 else none

/-- The header-merge loop of the closures: `for k, v := range headersMap
{ c.headers[k] = v }`, i.e. every per-call header is written into the
client-level map. -/
def mergeHeaders (client call : List (Str × Str)) : List (Str × Str) :=
  call.foldl (fun m kv => upsert m kv.1 kv.2) client

/-- The observable header effect of one invocation: the headers set on the
request (`for k, v := range c.headers { r.SetHeader(k, v) }` runs after the
merge loop) and the client's header map after the call.  Both are the merged
map, because the merge writes into `c.headers` itself. -/
structure HeaderEffect where
  requestHeaders : List (Str × Str)
  clientAfter : List (Str × Str)
  deriving DecidableEq, Repr

def applyCallHeaders (clientBefore callHeaders : List (Str × Str)) : HeaderEffect :=
  let merged := mergeHeaders clientBefore callHeaders
  ⟨merged, merged⟩

/-! ### URL resolution -/

/-- Model of `resolveUrl`: a value with an explicit scheme is used verbatim,
otherwise it is looked up externally (`viper.GetString`, modelled by the
`lookup` parameter, which returns `""` for missing keys). -/
def resolveUrl (lookup : Str → Str) (value : Str) : Str :=
  if startsWithL value (str "http://") || startsWithL value (str "https://") then value
  else lookup value

/-- The `@Url` scan over the lines of a marker field's tag, shared by both
variants: the first trimmed line starting with `@Url` and having at least
two fields yields its second field; a short `@Url` line does not stop the
scan. -/
def findUrlLine : List Str → Option Str
  | [] => none
  | line0 :: rest =>
    let line := trimL line0
    if startsWithL line (str "@Url") then
      if 2 ≤ (fieldsL line).length then some (directiveValue line)
      else findUrlLine rest
    else findUrlLine rest

/-- First variant: the resolved marker value replaces the client base URL
only when it is non-empty. -/
def urlFromTagV1 (lookup : Str → Str) (clientBase tag : Str) : Str :=
  match findUrlLine (splitOnChar '|' tag) with
  | none => clientBase
  | some value =>
    let url := resolveUrl lookup value
    if url ≠ [] then url else clientBase

/-- Second variant: a present marker always overrides the client base URL,
even when resolution yields the empty string. -/
def urlFromTagV2 (lookup : Str → Str) (clientBase tag : Str) : Str :=
  match findUrlLine (splitOnChar '|' tag) with
  | none => clientBase
  | some value => resolveUrl lookup value

/-! ### Response mapping -/

/-- The `HttpError` struct. -/
structure HttpError where
  statusCode : Int
  status : Str
  body : Str
  deriving DecidableEq, Repr

/-- The two error shapes a closure can return: an `*HttpError`, or the
wrapped decode error `fmt.Errorf("unmarshal failed: %w", err)`. -/
inductive CallError where
  | http (e : HttpError)
  | decodeFailed (cause : Str)
  deriving DecidableEq, Repr

/-- What `r.Execute` produced: either a transport-level error (no response)
or a response with status code, status text and raw body. -/
inductive HttpOutcome where
  | transportError (cause : Str)
  | response (statusCode : Int) (status : Str) (body : Str)
  deriving DecidableEq, Repr

/-- The tail of both closures after `r.Execute`: a transport error yields
`HttpError{0, "connection failed", cause}`; a status outside `[200, 300)`
yields `HttpError{code, status, body}` without touching the decoder;
otherwise the body is decoded (`json.Unmarshal`, abstracted by `decode`),
a failure yielding the wrapped decode error.  `zero` stands for
`reflect.Zero(methodType.Out(0))`. -/
def mapResponse {α : Type} (zero : α) (decode : Str → Except Str α) :
    HttpOutcome → α × Option CallError
  | .transportError cause => (zero, some (.http ⟨0, str "connection failed", cause⟩))
  | .response code status body =>
    if code < 200 ∨ 300 ≤ code then (zero, some (.http ⟨code, status, body⟩))
    else
      match decode body with
      | .error cause => (zero, some (.decodeFailed cause))
      | .ok v => (v, none)

/-! ## Theorems -/

/-! ### Response mapping (C4, C6, C7) -/

/-- C4: for every invocation whose response has a status code outside
`[200, 300)`, the closure returns the zero value of the result type paired
with an `HttpError` carrying that status code, the status text and the raw
response body; the decoder is never consulted in this branch — the result is
the same for every decode function. -/
theorem non2xx_yields_http_error_without_decode {α : Type} (zero : α)
    (decode : Str → Except Str α) (code : Int) (status body : Str)
    (h : code < 200 ∨ 300 ≤ code) :
    mapResponse zero decode (.response code status body)
      = (zero, some (.http ⟨code, status, body⟩)) := by
  simp [mapResponse, h]

/-- Witness for C4 at a concrete 404 response whose body would decode
fine — the decoder is still not consulted. -/
theorem non2xx_yields_http_error_without_decode_witness :
    mapResponse false (fun _ => Except.ok true)
        (.response 404 (str "404 Not Found") (str "not found"))
      = (false, some (.http ⟨404, str "404 Not Found", str "not found"⟩)) :=
  non2xx_yields_http_error_without_decode false (fun _ => Except.ok true) 404
    (str "404 Not Found") (str "not found") (by decide)

/-- C6: for every invocation where no HTTP response is obtained, the closure
returns the zero result paired with an `HttpError` whose status code is `0`,
whose status is `"connection failed"`, and whose body is the underlying
cause text. -/
theorem transport_failure_yields_connection_failed {α : Type} (zero : α)
    (decode : Str → Except Str α) (cause : Str) :
    mapResponse zero decode (.transportError cause)
      = (zero, some (.http ⟨0, str "connection failed", cause⟩)) := rfl

/-- C7: for every invocation whose response status is in `[200, 300)` but
whose body fails to decode, the closure returns the zero result paired with
the decode error carrying the underlying cause, and that error is not an
`HttpError` (it differs from every `CallError.http` value). -/
theorem decode_failure_yields_distinct_error {α : Type} (zero : α)
    (decode : Str → Except Str α) (code : Int) (status body cause : Str)
    (h1 : 200 ≤ code) (h2 : code < 300) (hd : decode body = .error cause) :
    mapResponse zero decode (.response code status body)
        = (zero, some (.decodeFailed cause))
      ∧ ∀ e : HttpError, CallError.decodeFailed cause ≠ CallError.http e := by
  have hne : ¬ (code < 200 ∨ 300 ≤ code) := by omega
  exact ⟨by simp [mapResponse, hne, hd], fun e h => CallError.noConfusion h⟩

/-- Witness for C7 at a concrete 200 response with a failing decoder. -/
theorem decode_failure_yields_distinct_error_witness :
    mapResponse false (fun _ => Except.error (str "bad json"))
        (.response 200 (str "200 OK") (str "oops"))
      = (false, some (.decodeFailed (str "bad json")))
      ∧ ∀ e : HttpError,
          CallError.decodeFailed (str "bad json") ≠ CallError.http e :=
  decode_failure_yields_distinct_error false (fun _ => Except.error (str "bad json"))
    200 (str "200 OK") (str "oops") (str "bad json") (by decide) (by decide) rfl

/-! ### Per-call headers (C3) -/

theorem lookupA_upsert (m : List (Str × Str)) (k v k2 : Str) :
    lookupA (upsert m k v) k2 = if k = k2 then some v else lookupA m k2 := by
  induction m with
  | nil => simp [upsert, lookupA]
  | cons kv rest ih =>
    obtain ⟨k1, v1⟩ := kv
    by_cases h1 : k1 = k
    · subst h1
      by_cases h2 : k1 = k2 <;> simp [upsert, lookupA, h2]
    · by_cases h2 : k1 = k2
      · subst h2
        have : ¬ k = k1 := fun h => h1 h.symm
        simp [upsert, lookupA, h1, this]
      · simp [upsert, lookupA, h1, h2, ih]

theorem lookupA_mergeHeaders (call : List (Str × Str)) :
    ∀ (m : List (Str × Str)) (k : Str),
      lookupA (mergeHeaders m call) k
        = match lookupLast call k with
          | some v => some v
          | none => lookupA m k := by
  induction call with
  | nil => intro m k; simp [mergeHeaders, lookupLast]
  | cons kv rest ih =>
    intro m k
    obtain ⟨k1, v1⟩ := kv
    have hstep : mergeHeaders m ((k1, v1) :: rest) = mergeHeaders (upsert m k1 v1) rest := rfl
    rw [hstep, ih]
    cases h : lookupLast rest k with
    | some v => simp [lookupLast, h]
    | none =>
      by_cases hk : k1 = k <;> simp [lookupLast, h, hk, lookupA_upsert]

/-- C3 (amended): on every invocation, the per-call headers are merged with
the client's headers, the per-call value winning on key collision (the last
per-call binding of a key wins over both earlier bindings and the client
default); but the merge is performed on the client-level map in place — the
map the client holds after the call is the merged map, not its prior
value. -/
theorem call_headers_merge_mutates_client (client call : List (Str × Str)) (k : Str) :
    lookupA (applyCallHeaders client call).requestHeaders k
        = (match lookupLast call k with
           | some v => some v
           | none => lookupA client k)
      ∧ (applyCallHeaders client call).clientAfter = mergeHeaders client call :=
  ⟨lookupA_mergeHeaders call client k, rfl⟩

/-- Counterexample to C3 as stated: a call whose per-call header collides
with a client default leaves the client-level map changed — it is mutated in
place, not merged into a per-call copy. -/
theorem client_header_map_mutated :
    (applyCallHeaders [(str "Authorization", str "old")]
        [(str "Authorization", str "new")]).clientAfter
      ≠ [(str "Authorization", str "old")] := by decide

/-! ### Base URL resolution (C8) -/

/-- C8 (amended): with an `@Url` marker present, both variants use a literal
`http://`/`https://` value verbatim and otherwise the externally looked-up
value; on a failed (empty) lookup the first variant falls back to the
client-level base URL while the second variant keeps the empty string.  The
client-level base is used by both variants when no marker is present. -/
theorem base_url_resolution_precedence (lookup : Str → Str) (base tag value : Str) :
    (findUrlLine (splitOnChar '|' tag) = some value →
        urlFromTagV1 lookup base tag
            = (if resolveUrl lookup value ≠ [] then resolveUrl lookup value else base)
          ∧ urlFromTagV2 lookup base tag = resolveUrl lookup value)
      ∧ (findUrlLine (splitOnChar '|' tag) = none →
          urlFromTagV1 lookup base tag = base ∧ urlFromTagV2 lookup base tag = base)
      ∧ (startsWithL value (str "http://") = true ∨ startsWithL value (str "https://") = true →
          resolveUrl lookup value = value)
      ∧ (startsWithL value (str "http://") = false → startsWithL value (str "https://") = false →
          resolveUrl lookup value = lookup value) := by
  refine ⟨fun h => ⟨?_, ?_⟩, fun h => ⟨?_, ?_⟩, fun h => ?_, fun h1 h2 => ?_⟩
  · simp [urlFromTagV1, h]
  · simp [urlFromTagV2, h]
  · simp [urlFromTagV1, h]
  · simp [urlFromTagV2, h]
  · rcases h with h | h <;> simp [resolveUrl, h]
  · simp [resolveUrl, h1, h2]

/-- Witness for C8 (amended) at a concrete marker whose lookup fails. -/
theorem base_url_resolution_precedence_witness :
    urlFromTagV1 (fun _ => []) (str "http://base") (str "@Url missing.key")
        = (if resolveUrl (fun _ => []) (str "missing.key") ≠ []
           then resolveUrl (fun _ => []) (str "missing.key") else str "http://base")
      ∧ urlFromTagV2 (fun _ => []) (str "http://base") (str "@Url missing.key")
        = resolveUrl (fun _ => []) (str "missing.key") :=
  (base_url_resolution_precedence (fun _ => []) (str "http://base")
    (str "@Url missing.key") (str "missing.key")).1 (by decide)

/-- Counterexample to C8 as stated: in the second variant, an `@Url` marker
whose name resolves to nothing yields an empty base URL instead of falling
back to the client-level configured base (which the first variant does use),
so the stated three-step precedence does not hold of the program as a
whole. -/
theorem url_marker_failed_lookup_divergence :
    urlFromTagV2 (fun _ => []) (str "http://base") (str "@Url missing.key") = []
      ∧ ([] : Str) ≠ str "http://base"
      ∧ urlFromTagV1 (fun _ => []) (str "http://base") (str "@Url missing.key")
          = str "http://base" := by decide

/-! ### Directive parsing (C2) -/

theorem startsWithL_ne_nil {line : Str} (h : startsWithL line (str "@") = true) :
    line ≠ [] := by
  intro hnil
  subst hnil
  simp [startsWithL, str, List.isPrefixOf] at h

theorem parseLine_verb (t : CallTemplate) (line0 : Str)
    (h : isVerbLineB line0 = true) :
    parseLine t line0
      = { t with httpMethod := toUpperL (directiveTag (trimL line0)),
                 path := directiveValue (trimL line0) } := by
  simp only [isVerbLineB, Bool.and_eq_true, decide_eq_true_eq] at h
  obtain ⟨⟨h1, h2⟩, h3⟩ := h
  have h0 : trimL line0 ≠ [] := startsWithL_ne_nil h1
  simp [parseLine, h0, h1, Nat.not_lt.2 h2, h3]

theorem parseLine_non_verb (t : CallTemplate) (line0 : Str)
    (h : isVerbLineB line0 = false) :
    (parseLine t line0).httpMethod = t.httpMethod
      ∧ (parseLine t line0).path = t.path := by
  by_cases h0 : trimL line0 = []
  · simp [parseLine, h0]
  · by_cases h1 : startsWithL (trimL line0) (str "@")
    · by_cases h2 : (fieldsL (trimL line0)).length < 2
      · simp [parseLine, h0, h1, h2]
      · have h3 : toUpperL (directiveTag (trimL line0)) ∉ verbs := by
          intro hmem
          rw [isVerbLineB] at h
          simp only [h1, Bool.true_and, Bool.and_eq_false_iff, decide_eq_false_iff_not] at h
          rcases h with h | h
          · exact h (Nat.not_lt.1 h2)
          · exact h hmem
        simp only [parseLine, h0, if_neg h0, h1, if_pos h1, if_neg h2, if_neg h3]
        split_ifs <;> simp
    · simp [parseLine, h0, h1]

theorem parseTag_fold_no_verb (lines : List Str) :
    ∀ t : CallTemplate, (∀ l ∈ lines, isVerbLineB l = false) →
      (lines.foldl parseLine t).httpMethod = t.httpMethod
        ∧ (lines.foldl parseLine t).path = t.path := by
  induction lines with
  | nil => intro t _; exact ⟨rfl, rfl⟩
  | cons l ls ih =>
    intro t h
    have hl : isVerbLineB l = false := h l (by simp)
    have hrest := ih (parseLine t l) (fun x hx => h x (by simp [hx]))
    have hline := parseLine_non_verb t l hl
    exact ⟨hrest.1.trans hline.1, hrest.2.trans hline.2⟩

/-- C2 (amended): parsing a field's directive string is total and never
reports an error.  Every verb directive line overwrites the template's
method and path — so when several verb directives occur, the last one wins —
and a directive string whose lines contain no verb directive parses to a
template with empty method and empty path instead of failing with
`"missing HTTP method or path"`. -/
theorem parse_total_last_verb_wins :
    (∀ (t : CallTemplate) (line : Str), isVerbLineB line = true →
        parseLine t line
          = { t with httpMethod := toUpperL (directiveTag (trimL line)),
                     path := directiveValue (trimL line) })
      ∧ (∀ doc : Str, (∀ l ∈ splitOnChar '|' doc, isVerbLineB l = false) →
          (parseTag doc).httpMethod = [] ∧ (parseTag doc).path = []) :=
  ⟨parseLine_verb, fun doc h => parseTag_fold_no_verb (splitOnChar '|' doc) {} h⟩

/-- Witness for C2 (amended): a tag with only a `@Path` directive parses to
an empty method and path, and a verb line overwrites an already-set
method. -/
theorem parse_total_last_verb_wins_witness :
    ((parseTag (str "@Path id")).httpMethod = [] ∧ (parseTag (str "@Path id")).path = [])
      ∧ parseLine ⟨str "GET", str "/a", [], [], [], []⟩ (str "@POST /b")
          = ⟨str "POST", str "/b", [], [], [], []⟩ :=
  ⟨parse_total_last_verb_wins.2 (str "@Path id") (by decide),
   (parse_total_last_verb_wins.1 ⟨str "GET", str "/a", [], [], [], []⟩
      (str "@POST /b") (by decide)).trans (by decide)⟩

/-- Counterexample to C2 as stated: a directive string with two verb
directives parses without any error (the last verb wins), and a directive
string with no verb directive also parses without any error — in particular
no parse failure `"missing HTTP method or path"` exists anywhere in the
directive loop, which is a total function into `CallTemplate`. -/
theorem duplicate_and_missing_verb_parse_without_error :
    parseTag (str "@GET /a | @POST /b") = ⟨str "POST", str "/b", [], [], [], []⟩
      ∧ parseTag (str "@Path id") = ⟨[], [], [], [str "id"], [], []⟩ := by decide

/-! ### Bind-time validation (C10, C1) -/

theorem validateSigV1_ok_iff (name : Str) (s : FuncSig) :
    validateSigV1 name s = .ok () ↔ SigOkV1 s := by
  unfold validateSigV1 SigOkV1
  split_ifs with h1 h2 h3
  · simp only [reduceCtorEq, false_iff]
    rintro ⟨a, -, -, -⟩
    omega
  · simp only [reduceCtorEq, false_iff]
    rintro ⟨-, b, -, -⟩
    simp [b] at h2
  · simp only [reduceCtorEq, false_iff]
    rintro ⟨-, -, c, d⟩
    rcases h3 with h | h
    · exact h c
    · simp [d] at h
  · simp only [true_iff]
    push_neg at h3
    refine ⟨by omega, by simpa using h2, h3.1, by simpa using h3.2⟩

theorem bindFieldsV1_ok_iff (fields : List TargetField) :
    (∃ ts, bindFieldsV1 fields = .ok ts)
      ↔ ∀ f ∈ fields, ∀ s, f.funcSig = some s → SigOkV1 s := by
  induction fields with
  | nil => exact ⟨fun _ => by simp, fun _ => ⟨[], rfl⟩⟩
  | cons f fs ih =>
    cases hf : f.funcSig with
    | none =>
      have hstep : bindFieldsV1 (f :: fs) = bindFieldsV1 fs := by
        simp [bindFieldsV1, hf]
      rw [hstep, ih]
      constructor
      · intro h g hg s2 hgs
        rcases List.mem_cons.1 hg with rfl | hm
        · rw [hf] at hgs
          cases hgs
        · exact h g hm s2 hgs
      · intro h g hg s2 hgs
        exact h g (by simp [hg]) s2 hgs
    | some s =>
      cases hv : validateSigV1 f.name s with
      | error e =>
        have hns : ¬ SigOkV1 s := by
          rw [← validateSigV1_ok_iff f.name]
          simp [hv]
        constructor
        · rintro ⟨ts, h⟩
          simp [bindFieldsV1, hf, hv] at h
        · intro h
          exact absurd (h f (by simp) s hf) hns
      | ok u =>
        obtain ⟨⟩ := u
        have hs : SigOkV1 s := (validateSigV1_ok_iff f.name s).1 hv
        constructor
        · rintro ⟨ts, h⟩
          simp only [bindFieldsV1, hf, hv] at h
          cases hb : bindFieldsV1 fs with
          | error e => rw [hb] at h; cases h
          | ok rest =>
            intro g hg s2 hgs
            rcases List.mem_cons.1 hg with hgf | hgfs
            · subst hgf
              rw [hf] at hgs
              cases hgs
              exact hs
            · exact ih.1 ⟨rest, hb⟩ g hgfs s2 hgs
        · intro h
          obtain ⟨rest, hb⟩ := ih.2 (fun g hg s2 hgs => h g (by simp [hg]) s2 hgs)
          exact ⟨(f.name, parseTag f.tag) :: rest, by simp [bindFieldsV1, hf, hv, hb]⟩

/-- C10: the first variant's `Create` panics at bind time iff some
function-typed field has no parameter, or a first parameter not implementing
`context.Context`, or a return shape other than two values with the second
implementing `error`; equivalently, it returns normally iff every bound
function field satisfies all three conditions. -/
theorem createV1_signature_validation (fields : List TargetField) :
    (∃ ts, bindFieldsV1 fields = .ok ts)
      ↔ ∀ f ∈ fields, ∀ s, f.funcSig = some s → SigOkV1 s :=
  bindFieldsV1_ok_iff fields

/-- C1 (amended): binding performs no arity validation at all.  Per-field
synthesis succeeds exactly when the signature-shape checks pass, regardless
of how many PATH/QUERY/HEADER bindings the tag declares versus how many
trailing parameters the signature has; at call time a binding whose argument
has run out is silently skipped, and a declared body with no remaining
argument is only detected at call time, by a runtime panic. -/
theorem bind_has_no_arity_check :
    (∀ (name : Str) (s : FuncSig) (tag : Str),
        (∃ ts, bindFieldsV1 [⟨name, some s, tag⟩] = .ok ts) ↔ SigOkV1 s)
      ∧ (∀ t : CallTemplate, t.bodyParam ≠ [] →
          buildCallV1 t [] = .error (str "body param missing in function call args"))
      ∧ (∀ names : List Str, takeBind names [] = ([], [])) := by
  refine ⟨fun name s tag => ?_, fun t h => ?_, fun names => ?_⟩
  · rw [bindFieldsV1_ok_iff]
    constructor
    · intro h
      exact h ⟨name, some s, tag⟩ (by simp) s rfl
    · intro h g hg s2 hgs
      rcases List.mem_singleton.1 hg with rfl
      cases hgs
      exact h
  · simp [buildCallV1, h]
  · cases names <;> rfl

/-- Witness for C1 (amended): a concrete template with a declared body
panics at call time when invoked with no trailing arguments. -/
theorem bind_has_no_arity_check_witness :
    buildCallV1 ⟨str "POST", str "/users", str "user", [], [], []⟩ []
      = .error (str "body param missing in function call args") :=
  bind_has_no_arity_check.2.1 ⟨str "POST", str "/users", str "user", [], [], []⟩
    (by decide)

/-- Counterexample to C1 as stated: a field declaring two PATH bindings on a
signature with a single trailing argument after the context slot binds
without any error — the mismatch does not abort synthesis at bind time. -/
theorem arity_mismatch_accepted_at_bind :
    bindFieldsV1 [⟨str "GetUser", some ⟨2, true, 2, true⟩,
        str "@GET /u/\x7bid\x7d | @Path id | @Path x"⟩]
      = .ok [(str "GetUser",
          ⟨str "GET", str "/u/\x7bid\x7d", [], [str "id", str "x"], [], []⟩)]
      ∧ (⟨str "GET", str "/u/\x7bid\x7d", [], [str "id", str "x"], [], []⟩
            : CallTemplate).paths.length = 2
      ∧ (⟨2, true, 2, true⟩ : FuncSig).numIn - 1 = 1 := by
  refine ⟨by rfl, by decide, by decide⟩

/-! ### Positional argument order (C9) -/

theorem takeBind_exact (names : List Str) :
    ∀ (args rest : List Str), args.length = names.length →
      takeBind names (args ++ rest) = (names.zip args, rest) := by
  induction names with
  | nil =>
    intro args rest h
    rw [List.length_eq_zero.1 h]
    rfl
  | cons n ns ih =>
    intro args rest h
    cases args with
    | nil => simp at h
    | cons a as =>
      simp only [List.length_cons, Nat.succ.injEq] at h
      simp [takeBind, List.zip_cons_cons, ih as rest h]

theorem consumeTrailing_exact (t : CallTemplate) (b : Option Str)
    (pas qas has : List Str) (hp : pas.length = t.paths.length)
    (hq : qas.length = t.queries.length) (hh : has.length = t.headers.length) :
    consumeTrailing t b (pas ++ (qas ++ has))
      = ⟨b, t.paths.zip pas, t.queries.zip qas, t.headers.zip has⟩ := by
  have e1 := takeBind_exact t.paths pas (qas ++ has) hp
  have e2 := takeBind_exact t.queries qas has hq
  have e3 : takeBind t.headers (has ++ []) = (t.headers.zip has, []) :=
    takeBind_exact t.headers has [] hh
  rw [List.append_nil] at e3
  rw [consumeTrailing, e1]
  simp only [e2, e3]

/-- C9: for every synthesized callable and argument list matching the
template arity, positional arguments are consumed in the fixed order —
in the first variant the context first, then the optional body, then the
path variables in declaration order, then the query variables, then the
header variables; the second variant is identical except that it has no
context slot. -/
theorem positional_argument_order (t : CallTemplate) (ctx b : Str)
    (pas qas has : List Str) (hp : pas.length = t.paths.length)
    (hq : qas.length = t.queries.length) (hh : has.length = t.headers.length) :
    (t.bodyParam ≠ [] →
        invokeArgsV1 t (ctx :: b :: (pas ++ qas ++ has))
          = .ok (ctx, ⟨some b, t.paths.zip pas, t.queries.zip qas, t.headers.zip has⟩))
      ∧ (t.bodyParam = [] →
          invokeArgsV1 t (ctx :: (pas ++ qas ++ has))
            = .ok (ctx, ⟨none, t.paths.zip pas, t.queries.zip qas, t.headers.zip has⟩))
      ∧ (t.bodyParam ≠ [] →
          buildCallV2 t (b :: (pas ++ qas ++ has))
            = .ok ⟨some b, t.paths.zip pas, t.queries.zip qas, t.headers.zip has⟩)
      ∧ (t.bodyParam = [] →
          buildCallV2 t (pas ++ qas ++ has)
            = .ok ⟨none, t.paths.zip pas, t.queries.zip qas, t.headers.zip has⟩) := by
  have hc := consumeTrailing_exact t (some b) pas qas has hp hq hh
  have hc0 := consumeTrailing_exact t none pas qas has hp hq hh
  refine ⟨fun hb => ?_, fun hb => ?_, fun hb => ?_, fun hb => ?_⟩
  · simp [invokeArgsV1, buildCallV1, hb, hc, Except.map]
  · simp [invokeArgsV1, buildCallV1, hb, hc0, Except.map]
  · simp [buildCallV2, hb, hc]
  · simp [buildCallV2, hb, hc0]

/-- Witness for C9 at a concrete template with a body, one path, one query
and one header binding. -/
theorem positional_argument_order_witness :
    invokeArgsV1 ⟨str "POST", str "/u", str "user", [str "id"], [str "Authorization"], [str "q"]⟩
        [str "ctx", str "bodyVal", str "1", str "2", str "3"]
      = .ok (str "ctx",
          ⟨some (str "bodyVal"), [(str "id", str "1")], [(str "q", str "2")],
            [(str "Authorization", str "3")]⟩) :=
  ((positional_argument_order
      ⟨str "POST", str "/u", str "user", [str "id"], [str "Authorization"], [str "q"]⟩
      (str "ctx") (str "bodyVal") [str "1"] [str "2"] [str "3"]
      rfl rfl rfl).1 (by decide)).trans (by rfl)

/-! ### Path placeholder substitution (C5) -/

theorem replAuxF_fuel_irrel (ph : Char) (pt v : Str) :
    ∀ (n m : Nat) (s : Str), s.length ≤ n → s.length ≤ m →
      replAuxF ph pt v n s = replAuxF ph pt v m s := by
  intro n
  induction n with
  | zero =>
    intro m s hn _
    have hs : s = [] := List.length_eq_zero.1 (Nat.le_zero.1 hn)
    subst hs
    cases m <;> rfl
  | succ n ih =>
    intro m s hn hm
    cases s with
    | nil => cases m <;> rfl
    | cons c s2 =>
      cases m with
      | zero => simp at hm
      | succ m2 =>
        simp only [List.length_cons, Nat.succ_le_succ_iff] at hn hm
        cases hpre : (ph :: pt).isPrefixOf (c :: s2) with
        | true =>
          simp only [replAuxF, hpre, if_true]
          congr 1
          apply ih
          · rw [List.length_drop]
            omega
          · rw [List.length_drop]
            omega
        | false =>
          simp only [replAuxF, hpre, Bool.false_eq_true, if_false]
          rw [ih m2 s2 hn hm]

theorem replAuxF_of_not_contains (ph : Char) (pt v : Str) :
    ∀ (s : Str) (fuel : Nat), s.length ≤ fuel →
      containsSub s (ph :: pt) = false → replAuxF ph pt v fuel s = s := by
  intro s
  induction s with
  | nil =>
    intro fuel _ _
    cases fuel <;> rfl
  | cons c s2 ih =>
    intro fuel hf hc
    cases fuel with
    | zero => simp at hf
    | succ f =>
      simp only [containsSub, Bool.or_eq_false_iff] at hc
      obtain ⟨h1, h2⟩ := hc
      simp only [List.length_cons, Nat.succ_le_succ_iff] at hf
      simp only [replAuxF, h1, Bool.false_eq_true, if_false]
      rw [ih f hf h2]

theorem replaceAllL_of_not_contains (s pat v : Str) (hne : pat ≠ [])
    (h : containsSub s pat = false) : replaceAllL s pat v = s := by
  cases pat with
  | nil => exact absurd rfl hne
  | cons ph pt => exact replAuxF_of_not_contains ph pt v s s.length le_rfl h

theorem replAuxF_junction (ph : Char) (pt v r : Str) :
    ∀ (l : Str) (fuel : Nat), (l ++ (ph :: pt) ++ r).length ≤ fuel →
      (∀ t2 ∈ l.tails, t2 ≠ [] → (ph :: pt).isPrefixOf (t2 ++ (ph :: pt) ++ r) = false) →
      replAuxF ph pt v fuel (l ++ (ph :: pt) ++ r)
        = l ++ v ++ replAuxF ph pt v r.length r := by
  intro l
  induction l with
  | nil =>
    intro fuel hf _
    cases fuel with
    | zero => simp at hf
    | succ f =>
      have hpre : (ph :: pt).isPrefixOf (ph :: (pt ++ r)) = true := by
        rw [List.isPrefixOf_iff_prefix]
        exact ⟨r, by simp⟩
      simp only [List.nil_append, List.cons_append] at hf ⊢
      simp only [replAuxF, hpre, if_true, List.drop_left]
      simp only [List.length_cons, List.length_append, Nat.succ_le_succ_iff] at hf
      rw [replAuxF_fuel_irrel ph pt v f r.length r (by omega) le_rfl]
  | cons c l2 ih =>
    intro fuel hf hl
    cases fuel with
    | zero => simp at hf
    | succ f =>
      have hpre : (ph :: pt).isPrefixOf (c :: (l2 ++ (ph :: pt) ++ r)) = false := by
        have := hl (c :: l2) (by rw [List.mem_tails]) (by simp)
        simpa using this
      simp only [List.cons_append] at hf ⊢
      simp only [replAuxF, hpre, Bool.false_eq_true, if_false]
      simp only [List.length_cons, Nat.succ_le_succ_iff] at hf
      have hrec := ih f hf (fun t2 ht2 hne => hl t2
        (by
          rw [List.mem_tails] at ht2 ⊢
          exact ht2.trans (List.suffix_cons c l2)) hne)
      simp only [List.cons_append] at hrec
      rw [hrec]

theorem replaceAllL_append (l r pat v : Str) (hne : pat ≠ [])
    (hl : ∀ t2 ∈ l.tails, t2 ≠ [] → pat.isPrefixOf (t2 ++ pat ++ r) = false)
    (hr : containsSub r pat = false) :
    replaceAllL (l ++ pat ++ r) pat v = l ++ v ++ r := by
  cases pat with
  | nil => exact absurd rfl hne
  | cons ph pt =>
    rw [replaceAllL]
    rw [replAuxF_junction ph pt v r l (l ++ (ph :: pt) ++ r).length le_rfl hl]
    rw [replAuxF_of_not_contains ph pt v r r.length le_rfl hr]

theorem substPathL_of_not_contains :
    ∀ (ps as : List Str) (pattern : Str),
      (∀ p ∈ ps, containsSub pattern (placeholderL p) = false) →
      substPathL pattern ps as = pattern := by
  intro ps
  induction ps with
  | nil => intro as pattern _; rfl
  | cons p ps2 ih =>
    intro as pattern h
    cases as with
    | nil => rfl
    | cons a as2 =>
      rw [substPathL]
      rw [replaceAllL_of_not_contains pattern (placeholderL p) a (by simp [placeholderL])
        (h p (by simp))]
      exact ih as2 pattern (fun q hq => h q (by simp [hq]))

theorem braceFreeB_no_lbrace {s : Str} (h : braceFreeB s = true) :
    ∀ c ∈ s, c ≠ lbrace := by
  intro c hc
  rw [braceFreeB, List.all_eq_true] at h
  have := h c hc
  simp only [Bool.and_eq_true, Bool.not_eq_true', beq_eq_false_iff_ne] at this
  exact this.1

theorem braceFreeB_no_rbrace {s : Str} (h : braceFreeB s = true) :
    ∀ c ∈ s, c ≠ rbrace := by
  intro c hc
  rw [braceFreeB, List.all_eq_true] at h
  have := h c hc
  simp only [Bool.and_eq_true, Bool.not_eq_true', beq_eq_false_iff_ne] at this
  exact this.2

theorem braceFreeB_append (x y : Str) :
    braceFreeB (x ++ y) = (braceFreeB x && braceFreeB y) := by
  simp [braceFreeB, List.all_append]

theorem containsSub_append_no_lbrace (pat : Str) :
    ∀ (w z : Str), (∀ c ∈ w, c ≠ lbrace) →
      containsSub (w ++ z) (lbrace :: pat) = containsSub z (lbrace :: pat) := by
  intro w
  induction w with
  | nil => intro z _; rfl
  | cons c w2 ih =>
    intro z h
    have hb : (lbrace == c) = false :=
      beq_eq_false_iff_ne.2 (Ne.symm (h c (by simp)))
    simp only [List.cons_append, containsSub, List.isPrefixOf, hb, Bool.false_and,
      Bool.false_or]
    exact ih z (fun d hd => h d (by simp [hd]))

theorem placeholder_close_no_prefix :
    ∀ (p q z : Str), p ≠ q →
      (∀ c ∈ p, c ≠ rbrace) → (∀ c ∈ q, c ≠ rbrace) →
      (p ++ [rbrace]).isPrefixOf (q ++ rbrace :: z) = false := by
  intro p
  induction p with
  | nil =>
    intro q z hne _ hq
    cases q with
    | nil => exact absurd rfl hne
    | cons d q2 =>
      have hb : (rbrace == d) = false :=
        beq_eq_false_iff_ne.2 (Ne.symm (hq d (by simp)))
      simp [List.isPrefixOf, hb]
  | cons c p2 ih =>
    intro q z hne hp hq
    cases q with
    | nil =>
      have hb : (c == rbrace) = false := beq_eq_false_iff_ne.2 (hp c (by simp))
      simp [List.isPrefixOf, hb]
    | cons d q2 =>
      by_cases hcd : c = d
      · subst hcd
        have hne2 : p2 ≠ q2 := fun h => hne (by rw [h])
        simp only [List.cons_append, List.isPrefixOf, beq_self_eq_true, Bool.true_and]
        exact ih q2 z hne2 (fun e he => hp e (by simp [he]))
          (fun e he => hq e (by simp [he]))
      · have hb : (c == d) = false := beq_eq_false_iff_ne.2 hcd
        simp [List.isPrefixOf, hb]

theorem buildPattern_not_contains (p : Str) (hp : braceFreeB p = true) :
    ∀ (segs : List (Str × Str)),
      (∀ pr ∈ segs, braceFreeB pr.1 = true ∧ braceFreeB pr.2 = true) →
      p ∉ segs.map Prod.fst →
      containsSub (buildPattern segs) (placeholderL p) = false := by
  intro segs
  induction segs with
  | nil => intro _ _; rfl
  | cons pr rest ih =>
    intro hbf hnot
    obtain ⟨q, lq⟩ := pr
    have hq : braceFreeB q = true := (hbf (q, lq) (by simp)).1
    have hlq : braceFreeB lq = true := (hbf (q, lq) (by simp)).2
    rw [List.map_cons, List.mem_cons] at hnot
    push_neg at hnot
    obtain ⟨hpq, hrest⟩ := hnot
    have hshape : buildPattern ((q, lq) :: rest)
        = lbrace :: (q ++ rbrace :: (lq ++ buildPattern rest)) := by
      simp [buildPattern, placeholderL]
    rw [hshape]
    have h1 : (placeholderL p).isPrefixOf
        (lbrace :: (q ++ rbrace :: (lq ++ buildPattern rest))) = false := by
      have hf := placeholder_close_no_prefix p q (lq ++ buildPattern rest) hpq
        (braceFreeB_no_rbrace hp) (braceFreeB_no_rbrace hq)
      simp [placeholderL, List.isPrefixOf, hf]
    have h2 : containsSub (q ++ rbrace :: (lq ++ buildPattern rest))
        (placeholderL p) = false := by
      have hsh2 : q ++ rbrace :: (lq ++ buildPattern rest)
          = (q ++ rbrace :: lq) ++ buildPattern rest := by
        simp
      have hno : ∀ c ∈ q ++ rbrace :: lq, c ≠ lbrace := by
        intro c hc
        rcases List.mem_append.1 hc with hcq | hcr
        · exact braceFreeB_no_lbrace hq c hcq
        · rcases List.mem_cons.1 hcr with rfl | hcl
          · decide
          · exact braceFreeB_no_lbrace hlq c hcl
      rw [hsh2, show placeholderL p = lbrace :: (p ++ [rbrace]) from rfl,
        containsSub_append_no_lbrace (p ++ [rbrace]) (q ++ rbrace :: lq)
          (buildPattern rest) hno]
      exact ih (fun pr2 h2 => hbf pr2 (by simp [h2])) hrest
    simp only [containsSub, h1, h2, Bool.or_self]

theorem substPathL_segments :
    ∀ (segs : List (Str × Str)) (args : List Str) (L : Str),
      args.length = segs.length →
      braceFreeB L = true →
      (∀ pr ∈ segs, braceFreeB pr.1 = true ∧ braceFreeB pr.2 = true) →
      (∀ a ∈ args, braceFreeB a = true) →
      (segs.map Prod.fst).Nodup →
      substPathL (L ++ buildPattern segs) (segs.map Prod.fst) args
        = L ++ buildResult segs args := by
  intro segs
  induction segs with
  | nil =>
    intro args L hlen _ _ _ _
    have hargs : args = [] := List.length_eq_zero.1 (by simpa using hlen)
    subst hargs
    rfl
  | cons pr rest ih =>
    intro args L hlen hL hbf hargs hnd
    obtain ⟨p, lit⟩ := pr
    cases args with
    | nil => simp at hlen
    | cons a as =>
      have hlen2 : as.length = rest.length := by simpa using hlen
      have hp : braceFreeB p = true := (hbf (p, lit) (by simp)).1
      have hlit : braceFreeB lit = true := (hbf (p, lit) (by simp)).2
      have ha : braceFreeB a = true := hargs a (by simp)
      rw [List.map_cons, List.nodup_cons] at hnd
      obtain ⟨hpnot, hnd2⟩ := hnd
      have hsh : L ++ buildPattern ((p, lit) :: rest)
          = L ++ placeholderL p ++ (lit ++ buildPattern rest) := by
        simp [buildPattern]
      have hrepl : replaceAllL (L ++ placeholderL p ++ (lit ++ buildPattern rest))
          (placeholderL p) a = L ++ a ++ (lit ++ buildPattern rest) := by
        apply replaceAllL_append
        · simp [placeholderL]
        · intro t2 ht2 hne
          rw [List.mem_tails] at ht2
          cases t2 with
          | nil => exact absurd rfl hne
          | cons c t3 =>
            have hc : c ≠ lbrace :=
              braceFreeB_no_lbrace hL c (ht2.subset (by simp))
            have hb : (lbrace == c) = false := beq_eq_false_iff_ne.2 (Ne.symm hc)
            simp [placeholderL, List.isPrefixOf, hb]
        · rw [show placeholderL p = lbrace :: (p ++ [rbrace]) from rfl,
            containsSub_append_no_lbrace (p ++ [rbrace]) lit (buildPattern rest)
              (braceFreeB_no_lbrace hlit)]
          exact buildPattern_not_contains p hp rest
            (fun pr2 h2 => hbf pr2 (by simp [h2])) hpnot
      rw [List.map_cons, hsh, substPathL, hrepl]
      have hsh2 : L ++ a ++ (lit ++ buildPattern rest)
          = (L ++ a ++ lit) ++ buildPattern rest := by
        simp
      have hL2 : braceFreeB (L ++ a ++ lit) = true := by
        simp only [braceFreeB_append, Bool.and_eq_true]
        exact ⟨⟨hL, ha⟩, hlit⟩
      rw [hsh2, ih as (L ++ a ++ lit) hlen2 hL2
        (fun pr2 h2 => hbf pr2 (by simp [h2])) (fun b hb => hargs b (by simp [hb])) hnd2]
      simp [buildResult]

/-- C5: for argument lists matching the template arity, each `{name}`
placeholder in the path pattern is substituted with the stringified
corresponding path argument, path bindings consumed in declaration order,
and a placeholder with no corresponding PATH binding is left verbatim in the
final path.  The first conjunct is the general multi-binding case: a pattern
made of one placeholder per declared binding, in declaration order, each
followed by a literal — with distinct brace-free names and brace-free
literals and arguments, so that placeholders are well delimited — is mapped
to the same interleaving with each placeholder replaced by its
declaration-order argument.  The second conjunct is the single-step junction
form for a pattern `l ++ "{p}" ++ r`, and the third states that a pattern
containing none of the bound placeholders — in particular one made only of
unbound placeholders — passes through every substitution step unchanged. -/
theorem path_placeholder_substitution :
    (∀ (l0 : Str) (segs : List (Str × Str)) (args : List Str),
        args.length = segs.length →
        braceFreeB l0 = true →
        (∀ pr ∈ segs, braceFreeB pr.1 = true ∧ braceFreeB pr.2 = true) →
        (∀ a ∈ args, braceFreeB a = true) →
        (segs.map Prod.fst).Nodup →
        substPathL (l0 ++ buildPattern segs) (segs.map Prod.fst) args
          = l0 ++ buildResult segs args)
      ∧ (∀ (l r p a : Str) (ps as : List Str),
          (∀ t2 ∈ l.tails, t2 ≠ [] →
              (placeholderL p).isPrefixOf (t2 ++ placeholderL p ++ r) = false) →
          containsSub r (placeholderL p) = false →
          (∀ q ∈ ps, containsSub (l ++ a ++ r) (placeholderL q) = false) →
          substPathL (l ++ placeholderL p ++ r) (p :: ps) (a :: as) = l ++ a ++ r)
      ∧ (∀ (pattern : Str) (ps as : List Str),
          (∀ p ∈ ps, containsSub pattern (placeholderL p) = false) →
          substPathL pattern ps as = pattern) := by
  refine ⟨?_, ?_, ?_⟩
  · exact fun l0 segs args h1 h2 h3 h4 h5 => substPathL_segments segs args l0 h1 h2 h3 h4 h5
  · intro l r p a ps as hl hr hrest
    rw [substPathL]
    rw [replaceAllL_append l r (placeholderL p) a (by simp [placeholderL]) hl hr]
    exact substPathL_of_not_contains ps as (l ++ a ++ r) hrest
  · exact fun pattern ps as h => substPathL_of_not_contains ps as pattern h

/-- Witness for C5 at the two-binding pattern `/u/{id}/p/{pid}` with
declared bindings `[id, pid]` and arguments `[1, 2]`: both placeholders are
substituted in declaration order, yielding `/u/1/p/2`. -/
theorem path_placeholder_substitution_witness :
    substPathL (str "/u/" ++ buildPattern [(str "id", str "/p/"), (str "pid", [])])
        [str "id", str "pid"] [str "1", str "2"]
      = str "/u/" ++ buildResult [(str "id", str "/p/"), (str "pid", [])]
          [str "1", str "2"]
      ∧ str "/u/" ++ buildPattern [(str "id", str "/p/"), (str "pid", [])]
          = str "/u/\x7bid\x7d/p/\x7bpid\x7d"
      ∧ str "/u/" ++ buildResult [(str "id", str "/p/"), (str "pid", [])]
            [str "1", str "2"]
          = str "/u/1/p/2" :=
  ⟨path_placeholder_substitution.1 (str "/u/")
      [(str "id", str "/p/"), (str "pid", [])] [str "1", str "2"]
      rfl (by decide) (by decide) (by decide) (by decide),
   by decide, by decide⟩

end Feign
